import Mathlib

/-!
# Verification of the vkQuake RmlUI Quake-aware file interface

Shallow embedding of `src/internal/quake_file_interface.cpp` /
`quake_file_interface.h` (namespace `QRmlUI`, class `QuakeFileInterface`).

The class is a thin adapter over C stdio: `Open` probes a fixed list of
candidate physical paths with `fopen(..., "rb")` and returns the first
stream that opens, reinterpreted as an `Rml::FileHandle` (0 = not found);
`Read`, `Seek`, `Tell` delegate to `fread`, `fseek`, `ftell`.

We model a C stdio read-only stream on a regular binary file as its byte
contents plus a file-position indicator, with `fopen`/`fread`/`fseek`/
`ftell` given their ISO C / POSIX semantics for such streams.
-/

namespace QRmlUI

/-- A C stdio `FILE*` stream opened with `fopen(path, "rb")` on a regular
file: the byte contents that were in the file at open time, and the file
position indicator.  ISO C lets the position indicator be set past the end
of the data for a binary stream, so `pos` is not bounded by
`data.length`. -/
structure CFile where
  data : List Nat
  pos : Nat
deriving DecidableEq, Repr

/-- Resolve the target file position requested by `fseek(f, offset, origin)`:
`origin = 0` is `SEEK_SET`, `1` is `SEEK_CUR`, `2` is `SEEK_END`; any other
`origin` value is invalid and yields no target. -/
def seekTarget (f : CFile) (offset : Int) (origin : Int) : Option Int :=
  if origin = 0 then some offset
  else if origin = 1 then some ((f.pos : Int) + offset)
  else if origin = 2 then some ((f.data.length : Int) + offset)
  else none

/-- C stdio `fseek` on a readable binary stream over a regular file:
an invalid `origin` or a negative resulting position fails (returns
nonzero, here `none`) and leaves the position indicator unchanged; any
non-negative resulting position succeeds, including positions beyond the
end of the data (ISO C permits setting the indicator past end-of-file for
a binary stream). -/
def fseek (f : CFile) (offset : Int) (origin : Int) : Option CFile :=
  match seekTarget f offset origin with
  | none => none
  | some t => if t < 0 then none else some { f with pos := t.toNat }

/-- C stdio `fread(buffer, 1, size, f)` on a read-only stream: transfers
the bytes of `data` from the position indicator onward, at most `size` of
them, and advances the indicator by the number transferred.  Returns the
transferred bytes (the contents written into `buffer`) and the stream
after the call; the count returned by `fread` is the length of that
list. -/
def fread (f : CFile) (size : Nat) : List Nat × CFile :=
  let bytes := (f.data.drop f.pos).take size
  (bytes, { f with pos := f.pos + bytes.length })

/-- C stdio `ftell`: the current file position indicator. -/
def ftell (f : CFile) : Nat := f.pos

/-- Method `QuakeFileInterface::Read(buffer, size, file)`:
`return fread(buffer, 1, size, f);` — returns the byte count transferred
by `fread`, alongside the updated stream. -/
def readQ (f : CFile) (size : Nat) : Nat × CFile :=
  ((fread f size).1.length, (fread f size).2)

/-- Method `QuakeFileInterface::Seek(file, offset, origin)`:
`return fseek(f, offset, origin) == 0;` — true on success; on failure the
stream is unchanged. -/
def seekQ (f : CFile) (offset : Int) (origin : Int) : Bool × CFile :=
  match fseek f offset origin with
  | some f' => (true, f')
  | none => (false, f)

/-- Method `QuakeFileInterface::Tell(file)`:
`return static_cast<size_t>(ftell(f));`. -/
def tellQ (f : CFile) : Nat := ftell f

/-! ## The `Open` resolver

`QuakeFileInterface::Open(path)` probes candidate physical paths with
`fopen(candidate, "rb")` and returns the first stream that opens,
reinterpreted as a nonzero `Rml::FileHandle`; if every probe fails it
returns `0`.  We abstract `fopen` as a function from physical paths to
`Option Nat`: `some h` is a successfully opened stream (the non-null
`FILE*`, whose address reinterprets to the handle `h`), `none` is a
failed open, which under C stdio allocates nothing. -/

/-- The engine globals `Open` reads: `com_gamedir` (the active mod
directory, empty string when unset), `com_basedir` (empty string when
unset), and the result of `COM_GetGameNames(0)` (`none` models a NULL
`const char*`). -/
structure FSConfig where
  com_gamedir : String
  com_basedir : String
  gameNames : Option String
deriving DecidableEq, Repr

/-- The `while (pos < game_list.size())` loop in `Open`: take the segment
up to the next `';'` (`find`/`substr`), and if it is non-empty attempt
`fopen(com_basedir + "/" + game + "/" + path, "rb")`, returning the first
stream that opens; if `find` reported `npos` the loop breaks, otherwise it
resumes just after the separator. -/
def gameDirTry (fopenFn : String → Option Nat) (basedir path : String) :
    List Char → Option Nat
  | cs =>
    if h : cs.isEmpty then none
    else
      let game := cs.takeWhile (fun c => c ≠ ';')
      let attempt :=
        if game.isEmpty then none
        else fopenFn (basedir ++ "/" ++ String.mk game ++ "/" ++ path)
      match attempt with
      | some f => some f
      | none =>
        match hr : cs.dropWhile (fun c => c ≠ ';') with
        | [] => none
        | _ :: r =>
          have : r.length < cs.length := by
            have h1 := List.takeWhile_append_dropWhile
              (p := fun c => decide (c ≠ ';')) (l := cs)
            have h2 := congrArg List.length h1
            rw [List.length_append] at h2
            have h3 := congrArg List.length hr
            rw [List.length_cons] at h3
            omega
          gameDirTry fopenFn basedir path r
termination_by cs => cs.length

/-- Method `QuakeFileInterface::Open`, with `fopen` abstracted:
try `com_gamedir + "/" + path` when `com_gamedir` is non-empty; then, when
`com_basedir` is non-empty and `COM_GetGameNames(0)` is non-null and
non-empty, run the game-name loop; then try `com_basedir + "/" + path`
when `com_basedir` is non-empty; finally try `path` as-is.  Each
successful probe returns immediately. -/
def openQ (fopenFn : String → Option Nat) (cfg : FSConfig) (path : String) :
    Option Nat :=
  let tryMod :=
    if cfg.com_gamedir ≠ "" then fopenFn (cfg.com_gamedir ++ "/" ++ path)
    else none
  match tryMod with
  | some f => some f
  | none =>
    let tryGames :=
      if cfg.com_basedir ≠ "" then
        match cfg.gameNames with
        | some gs =>
          if gs ≠ "" then gameDirTry fopenFn cfg.com_basedir path gs.data
          else none
        | none => none
      else none
    match tryGames with
    | some f => some f
    | none =>
      let tryBase :=
        if cfg.com_basedir ≠ "" then fopenFn (cfg.com_basedir ++ "/" ++ path)
        else none
      match tryBase with
      | some f => some f
      | none => fopenFn path

/-- Method `Open` at the `Rml::FileHandle` level: a successful probe's stream
pointer reinterpreted as the handle, `0` when every probe failed. -/
def openFH (fopenFn : String → Option Nat) (cfg : FSConfig) (path : String) :
    Nat :=
  match openQ fopenFn cfg path with
  | some f => f
  | none => 0

/-! ### Spec-side descriptions used by the refinement claims -/

/-- Split a character list at every `';'` — the spec's "semicolon-separated
list", with one (possibly empty) segment per separator gap. -/
def specSplit : List Char → List (List Char)
  | [] => [[]]
  | c :: cs =>
    if c = ';' then [] :: specSplit cs
    else
      match specSplit cs with
      | [] => [[c]]
      | s :: ss => (c :: s) :: ss

/-- The spec's "game names" of a semicolon-separated list: each non-empty
segment, in list order. -/
def gameNameList (s : String) : List String :=
  ((specSplit s.data).filter (fun g => ¬ g.isEmpty)).map String.mk

/-- The spec's fixed probe order for `Open`: (1) modDir + "/" + path when
the mod directory is configured, (2) basedir + "/" + gameName + "/" + path
for each active game name in list order when a basedir is configured,
(3) basedir + "/" + path when a basedir is configured, (4) the path
unmodified; unconfigured (empty) steps contribute nothing. -/
def specProbeOrder (cfg : FSConfig) (path : String) : List String :=
  (if cfg.com_gamedir ≠ "" then [cfg.com_gamedir ++ "/" ++ path] else [])
    ++ (if cfg.com_basedir ≠ "" then
          (match cfg.gameNames with
           | some gs =>
             (gameNameList gs).map
               (fun g => cfg.com_basedir ++ "/" ++ g ++ "/" ++ path)
           | none => [])
        else [])
    ++ (if cfg.com_basedir ≠ "" then [cfg.com_basedir ++ "/" ++ path] else [])
    ++ [path]

/-- Resource-instrumented probe sequence: probe the candidates in order
with `fopen`; a failed `fopen` allocates no stream (C stdio), a successful
one allocates the stream that is immediately returned to the caller.  The
second component lists every stream left open when the probe sequence
returns. -/
def probeAll (fopenFn : String → Option Nat) : List String → Option Nat × List Nat
  | [] => (none, [])
  | c :: cs =>
    match fopenFn c with
    | some h => (some h, [h])
    | none => probeAll fopenFn cs

/-! ## Handles and `Length`

`quake_file_interface.h` declares
`size_t Length(Rml::FileHandle file) override;` but its implementation is
not among the sources; only the spec describes it. -/

/-- An open handle as the spec describes it: the underlying stream plus
the total logical size captured at `Open` time. -/
structure QHandle where
  file : CFile
  lengthAtOpen : Nat
deriving DecidableEq, Repr

/-- Modelled from the spec: `QuakeFileInterface::Length` is declared in
`quake_file_interface.h` but its implementation is missing from the
sources.  Per the spec it "returns total logical size captured at Open
time"; the handle is read-only for its whole life, so the captured value
is what every call returns. -/
def lengthQ (h : QHandle) : Nat := h.lengthAtOpen

/-- A freshly opened handle onto an asset with the given bytes: position
indicator at 0, length captured as the total size of the data. -/
def openHandle (data : List Nat) : QHandle :=
  ⟨⟨data, 0⟩, data.length⟩

/-- One interface call that can intervene between `Open` and `Close`:
a `Read` of some size or a `Seek` with some offset and origin. -/
inductive FileOp where
  | read (size : Nat)
  | seek (offset : Int) (origin : Int)
deriving DecidableEq, Repr

/-- Apply one interface call to a handle: `Read` and `Seek` act on the
underlying stream and do not touch the captured length. -/
def applyOp (h : QHandle) : FileOp → QHandle
  | .read n => ⟨(readQ h.file n).2, h.lengthAtOpen⟩
  | .seek off org => ⟨(seekQ h.file off org).2, h.lengthAtOpen⟩

/-- Apply a sequence of interface calls, first to last. -/
def applyOps (h : QHandle) (ops : List FileOp) : QHandle :=
  ops.foldl applyOp h

end QRmlUI

namespace QRmlUI

/-- Basic arithmetic of a transfer: the number of bytes `fread` moves. -/
theorem fread_length (f : CFile) (size : Nat) :
    (fread f size).1.length = min size (f.data.length - f.pos) := by
  simp [fread, List.length_take, List.length_drop, Nat.min_comm]

theorem fread_pos (f : CFile) (size : Nat) :
    (fread f size).2.pos = f.pos + (fread f size).1.length := by
  simp [fread]

theorem fread_data (f : CFile) (size : Nat) :
    (fread f size).2.data = f.data := by
  simp [fread]

/-- One-step decomposition of the spec-side split: the head segment is the
longest semicolon-free prefix, and the remaining segments are the split of
what follows the first separator. -/
theorem specSplit_decomp (cs : List Char) :
    specSplit cs = cs.takeWhile (fun c => c ≠ ';') ::
      (match cs.dropWhile (fun c => c ≠ ';') with
       | [] => []
       | _ :: r => specSplit r) := by
  induction cs with
  | nil => rfl
  | cons c cs ih =>
    by_cases hc : c = ';'
    · subst hc; simp [specSplit, List.takeWhile_cons, List.dropWhile_cons]
    · simp [specSplit, hc, List.takeWhile_cons, List.dropWhile_cons, ih]

/-- Non-dependent unfolding of the game-name loop. -/
theorem gameDirTry_unfold (fopenFn : String → Option Nat) (basedir path : String)
    (cs : List Char) :
    gameDirTry fopenFn basedir path cs =
      if cs.isEmpty then none
      else
        match (if (cs.takeWhile (fun c => c ≠ ';')).isEmpty then none
               else fopenFn (basedir ++ "/" ++
                 String.mk (cs.takeWhile (fun c => c ≠ ';')) ++ "/" ++ path)) with
        | some f => some f
        | none =>
          match cs.dropWhile (fun c => c ≠ ';') with
          | [] => none
          | _ :: r => gameDirTry fopenFn basedir path r := by
  rw [gameDirTry]
  by_cases h : cs.isEmpty
  · simp [h]
  · rw [dif_neg h, if_neg h]
    rcases ha : (if (cs.takeWhile (fun c => c ≠ ';')).isEmpty then none
               else fopenFn (basedir ++ "/" ++
                 String.mk (cs.takeWhile (fun c => c ≠ ';')) ++ "/" ++ path)) with _ | f
    · simp only [ha]
      rcases hr : cs.dropWhile (fun c => c ≠ ';') with _ | ⟨hd, r⟩
      · simp [hr]
      · simp [hr]
    · simp only [ha]

/-- The game-name loop tries exactly the non-empty segments of the
semicolon-separated list, in order, and returns the first success. -/
theorem gameDirTry_eq (fopenFn : String → Option Nat) (basedir path : String)
    (cs : List Char) :
    gameDirTry fopenFn basedir path cs =
      (((specSplit cs).filter (fun g => ¬ g.isEmpty)).map
        (fun g => basedir ++ "/" ++ String.mk g ++ "/" ++ path)).findSome?
        fopenFn := by
  suffices H : ∀ n (cs : List Char), cs.length ≤ n →
      gameDirTry fopenFn basedir path cs =
        (((specSplit cs).filter (fun g => ¬ g.isEmpty)).map
          (fun g => basedir ++ "/" ++ String.mk g ++ "/" ++ path)).findSome?
          fopenFn by
    exact H cs.length cs le_rfl
  intro n
  induction n with
  | zero =>
    intro cs hcs
    have hnil : cs = [] := List.length_eq_zero.mp (Nat.le_zero.mp hcs)
    subst hnil
    simp [gameDirTry_unfold, specSplit]
  | succ n ih =>
    intro cs hcs
    rw [gameDirTry_unfold, specSplit_decomp cs]
    by_cases hx : cs.isEmpty
    · have hnil : cs = [] := List.isEmpty_iff.mp hx
      subst hnil
      simp
    · rw [if_neg hx]
      have hlen := congrArg List.length (List.takeWhile_append_dropWhile
        (p := fun c => decide (c ≠ ';')) (l := cs))
      rw [List.length_append] at hlen
      by_cases hg : (cs.takeWhile (fun c => c ≠ ';')).isEmpty
      · rw [if_pos hg]
        have hgnil : cs.takeWhile (fun c => c ≠ ';') = [] :=
          List.isEmpty_iff.mp hg
        rw [hgnil]
        rcases hr : cs.dropWhile (fun c => c ≠ ';') with _ | ⟨hd, r⟩
        · simp
        · have hrl : r.length ≤ n := by
            have h3 := congrArg List.length hr
            rw [List.length_cons] at h3
            omega
          dsimp only
          rw [ih r hrl]
          clear ih hcs
          simp [List.filter_cons]
      · rw [if_neg hg]
        rcases hf : fopenFn (basedir ++ "/" ++
            String.mk (cs.takeWhile (fun c => c ≠ ';')) ++ "/" ++ path)
          with _ | f
        · rcases hr : cs.dropWhile (fun c => c ≠ ';') with _ | ⟨hd, r⟩
          · dsimp only
            clear ih hcs
            simp_all [List.filter_cons, List.findSome?_cons]
          · have hrl : r.length ≤ n := by
              have h3 := congrArg List.length hr
              rw [List.length_cons] at h3
              omega
            dsimp only
            rw [ih r hrl]
            clear ih hcs
            simp_all [List.filter_cons, List.findSome?_cons]
        · dsimp only
          clear ih hcs
          simp_all [List.filter_cons, List.findSome?_cons]

/-- Helper: `openQ` equals first-success over the spec probe order. -/
theorem openQ_eq_probe (fopenFn : String → Option Nat)
    (cfg : FSConfig) (path : String) :
    openQ fopenFn cfg path = (specProbeOrder cfg path).findSome? fopenFn := by
  rcases cfg with ⟨gd, bd, gn⟩
  simp only [openQ, specProbeOrder, List.findSome?_append, List.findSome?_cons,
    List.findSome?_nil]
  by_cases hgd : gd = "" <;> by_cases hbd : bd = "" <;>
    simp only [hgd, hbd, ne_eq, not_true_eq_false, not_false_eq_true, if_true,
      if_false, ite_true, ite_false, List.nil_append, List.append_nil]
  · simp only [List.findSome?_nil, Option.none_or]
    cases fopenFn path <;> rfl
  · rcases gn with _ | gs
    · dsimp only
      simp only [List.findSome?_cons, List.findSome?_nil, Option.none_or]
      cases fopenFn (bd ++ "/" ++ path) <;> cases fopenFn path <;> rfl
    · dsimp only
      by_cases hgs : gs = ""
      · subst hgs
        have hnil : gameNameList "" = [] := rfl
        simp only [hnil, not_true_eq_false, ite_false, List.map_nil,
          List.findSome?_cons, List.findSome?_nil, Option.none_or]
        cases fopenFn (bd ++ "/" ++ path) <;> cases fopenFn path <;> rfl
      · simp only [hgs, not_false_eq_true, ite_true]
        rw [gameDirTry_eq]
        simp only [gameNameList, List.map_map, Function.comp_def,
          List.findSome?_cons, List.findSome?_nil, Option.none_or]
        cases (((specSplit gs.data).filter (fun g => ¬ g.isEmpty)).map
            (fun g => bd ++ "/" ++ String.mk g ++ "/" ++ path)).findSome?
            fopenFn <;>
          cases fopenFn (bd ++ "/" ++ path) <;> cases fopenFn path <;> rfl
  · simp only [List.findSome?_cons, List.findSome?_nil, Option.none_or]
    cases fopenFn (gd ++ "/" ++ path) <;> cases fopenFn path <;> rfl
  · simp only [List.findSome?_cons, List.findSome?_nil, Option.none_or]
    cases fopenFn (gd ++ "/" ++ path)
    · rcases gn with _ | gs
      · dsimp only
        cases fopenFn (bd ++ "/" ++ path) <;> cases fopenFn path <;> rfl
      · dsimp only
        by_cases hgs : gs = ""
        · subst hgs
          have hnil : gameNameList "" = [] := rfl
          simp only [hnil, not_true_eq_false, ite_false, List.map_nil,
            List.findSome?_cons, List.findSome?_nil, Option.none_or]
          cases fopenFn (bd ++ "/" ++ path) <;> cases fopenFn path <;> rfl
        · simp only [hgs, not_false_eq_true, ite_true]
          rw [gameDirTry_eq]
          simp only [gameNameList, List.map_map, Function.comp_def,
            List.findSome?_cons, List.findSome?_nil, Option.none_or]
          cases (((specSplit gs.data).filter (fun g => ¬ g.isEmpty)).map
              (fun g => bd ++ "/" ++ String.mk g ++ "/" ++ path)).findSome?
              fopenFn <;>
            cases fopenFn (bd ++ "/" ++ path) <;> cases fopenFn path <;> rfl
    · rfl

/-- C1: for every logical path, `Open` probes candidate physical locations
in exactly the spec's fixed order — (1) modDir + "/" + path when the mod
directory is configured (non-empty), (2) basedir + "/" + gameName + "/" +
path for each name of the semicolon-separated active-game list in list
order when a basedir is configured, (3) basedir + "/" + path when a
basedir is configured, (4) the path unmodified — returning a handle for
the first candidate that opens; unconfigured (empty-string) steps are
skipped entirely. -/
theorem open_probes_in_spec_order (fopenFn : String → Option Nat)
    (cfg : FSConfig) (path : String) :
    openQ fopenFn cfg path = (specProbeOrder cfg path).findSome? fopenFn :=
  openQ_eq_probe fopenFn cfg path

/-- Helper: the first component of the instrumented probe run is the
first-success search. -/
theorem probeAll_fst (fopenFn : String → Option Nat) (l : List String) :
    (probeAll fopenFn l).1 = l.findSome? fopenFn := by
  induction l with
  | nil => rfl
  | cons c cs ih =>
    rw [probeAll, List.findSome?_cons]
    cases fopenFn c <;> simp [ih]

/-- Helper: when every probe fails, the run opens no stream at all. -/
theorem probeAll_none (fopenFn : String → Option Nat) (l : List String)
    (h : l.findSome? fopenFn = none) : probeAll fopenFn l = (none, []) := by
  induction l with
  | nil => rfl
  | cons c cs ih =>
    rw [List.findSome?_cons] at h
    rw [probeAll]
    cases hc : fopenFn c
    · rw [hc] at h
      exact ih h
    · rw [hc] at h
      exact absurd h (by simp)

/-- C2: for every logical path present in two configured roots of
different priority, `Open` returns the copy stored in the
higher-priority root, never the lower-priority copy: when every candidate
before some candidate `c` fails and `c` opens as stream `h`, the result is
`h` no matter what any later (lower-priority) candidate would have
returned. -/
theorem open_returns_highest_priority_copy (fopenFn : String → Option Nat)
    (cfg : FSConfig) (path : String) (l₁ l₂ : List String) (c : String)
    (h : Nat)
    (horder : specProbeOrder cfg path = l₁ ++ c :: l₂)
    (hmiss : ∀ c' ∈ l₁, fopenFn c' = none)
    (hhit : fopenFn c = some h) :
    openQ fopenFn cfg path = some h := by
  rw [openQ_eq_probe, horder, List.findSome?_append, List.findSome?_cons,
    List.findSome?_eq_none_iff.mpr hmiss, hhit, Option.none_or]

/-- C2 witness: a mod-directory copy (stream 1) shadows a basedir copy
(stream 2) of the same logical path. -/
theorem open_returns_highest_priority_copy_witness :
    openQ
      (fun s => if s = "mod/p" then some 1
                else if s = "base/p" then some 2 else none)
      ⟨"mod", "base", none⟩ "p" = some 1 :=
  open_returns_highest_priority_copy
    (fun s => if s = "mod/p" then some 1
              else if s = "base/p" then some 2 else none)
    ⟨"mod", "base", none⟩ "p" [] ["base/p", "p"] "mod/p" 1
    (by decide) (by simp) (by decide)

/-- C5: a failed `Open` allocates nothing: when every candidate probe
fails, the resource-instrumented run reports the not-found result and an
empty list of streams left open — no matter how many candidates were
tried. -/
theorem failed_open_allocates_nothing (fopenFn : String → Option Nat)
    (cfg : FSConfig) (path : String)
    (h : openQ fopenFn cfg path = none) :
    probeAll fopenFn (specProbeOrder cfg path) = (none, []) := by
  apply probeAll_none
  rw [← openQ_eq_probe]
  exact h

/-- C5 witness: a failed open of a path absent everywhere leaves zero
streams open. -/
theorem failed_open_allocates_nothing_witness :
    probeAll (fun _ => none) (specProbeOrder ⟨"", "", none⟩ "missing.rml") =
      (none, []) :=
  failed_open_allocates_nothing (fun _ => none) ⟨"", "", none⟩ "missing.rml"
    (by decide)

/-- C6: when every candidate root fails to produce a stream, `Open`
reports not-found by returning the sentinel zero handle (the model is a
total function: no exception is possible). -/
theorem open_all_fail_returns_zero_handle (fopenFn : String → Option Nat)
    (cfg : FSConfig) (path : String)
    (h : ∀ c ∈ specProbeOrder cfg path, fopenFn c = none) :
    openFH fopenFn cfg path = 0 := by
  have h0 : openQ fopenFn cfg path = none := by
    rw [openQ_eq_probe]
    exact List.findSome?_eq_none_iff.mpr h
  simp [openFH, h0]

/-- C6 witness: with every probe failing, the returned handle is 0. -/
theorem open_all_fail_returns_zero_handle_witness :
    openFH (fun _ => none) ⟨"mod", "base", none⟩ "a.rml" = 0 :=
  open_all_fail_returns_zero_handle (fun _ => none) ⟨"mod", "base", none⟩
    "a.rml" (by simp)

/-- C9: since `fopen` only ever returns non-null streams, every handle a
successful `Open` returns is nonzero, so the sentinel never collides with
a valid handle: `Open` returns 0 iff no candidate could be opened. -/
theorem open_zero_iff_not_found (fopenFn : String → Option Nat)
    (cfg : FSConfig) (path : String)
    (hnn : ∀ p h, fopenFn p = some h → h ≠ 0) :
    (openFH fopenFn cfg path = 0 ↔ openQ fopenFn cfg path = none) := by
  cases ho : openQ fopenFn cfg path with
  | none => simp [openFH, ho]
  | some f =>
    have hex : ∃ a ∈ specProbeOrder cfg path, fopenFn a = some f := by
      apply List.exists_of_findSome?_eq_some
      rw [← openQ_eq_probe]
      exact ho
    obtain ⟨a, _, ha⟩ := hex
    have hf : f ≠ 0 := hnn a f ha
    simp [openFH, ho, hf]

/-- C9 witness: the mod-directory candidate opens as the non-null stream
7, so `Open` returns the nonzero handle 7 and both sides of the
sentinel/not-found equivalence are false: the sentinel does not collide
with this valid handle. -/
theorem open_zero_iff_not_found_witness :
    openFH (fun s => if s = "mod/p" then some 7 else none)
      ⟨"mod", "base", none⟩ "p" = 7 ∧
    (openFH (fun s => if s = "mod/p" then some 7 else none)
        ⟨"mod", "base", none⟩ "p" = 0 ↔
      openQ (fun s => if s = "mod/p" then some 7 else none)
        ⟨"mod", "base", none⟩ "p" = none) :=
  ⟨by decide,
   open_zero_iff_not_found (fun s => if s = "mod/p" then some 7 else none)
     ⟨"mod", "base", none⟩ "p"
     (by
       intro q h e
       by_cases hq : q = "mod/p"
       · simp [hq] at e
         omega
       · simp [hq] at e)⟩

/-- C10: the basedir+gameName loop skips empty game-name segments
(consecutive, leading or trailing semicolons) without attempting any open
— they contribute no candidate — and still visits every non-empty name in
list order, including the final name when the list does not end with a
semicolon: the loop behaves as first-success over exactly the non-empty
segments of the semicolon split, in order. -/
theorem game_loop_visits_nonempty_names_in_order
    (fopenFn : String → Option Nat) (basedir path : String) (games : String) :
    gameDirTry fopenFn basedir path games.data =
      (((specSplit games.data).filter (fun g => ¬ g.isEmpty)).map
        (fun g => basedir ++ "/" ++ String.mk g ++ "/" ++ path)).findSome?
        fopenFn :=
  gameDirTry_eq fopenFn basedir path games.data

/-- C3 counterexample: the claim "a Seek whose resulting position would
fall outside [0, length] returns failure" is false on the code: `Seek` is
`fseek(...) == 0`, and `fseek` accepts any non-negative target, so seeking
a 1-byte stream to position 5 succeeds even though 5 > length. -/
theorem seek_past_length_succeeds_cex :
    (seekQ ⟨[7], 0⟩ 5 0).1 = true ∧ tellQ (seekQ ⟨[7], 0⟩ 5 0).2 = 5 ∧
      (CFile.mk [7] 0).data.length = 1 := by
  decide

/-- C3 amended: a `Seek` whose resulting position would be negative (or
whose origin is invalid) returns failure and leaves the position
unchanged, so `Tell` right after the failed `Seek` equals `Tell` right
before it; a successful `Seek` requires only `0 <= pos` — resulting
positions beyond length are accepted. -/
theorem seek_failure_contract (f : CFile) (off org : Int) :
    ((seekQ f off org).1 = false ↔
      seekTarget f off org = none ∨
        ∃ t, seekTarget f off org = some t ∧ t < 0) ∧
    ((seekQ f off org).1 = false →
      (seekQ f off org).2 = f ∧ tellQ (seekQ f off org).2 = tellQ f) := by
  unfold seekQ fseek
  cases ht : seekTarget f off org with
  | none => simp
  | some t =>
    by_cases h : t < 0
    · simp [h]
    · simp [h]

/-- C3 amended witness: a seek to position -1 fails and leaves the
stream untouched. -/
theorem seek_failure_contract_witness :
    (seekQ ⟨[], 0⟩ (-1) 0).2 = ⟨[], 0⟩ :=
  ((seek_failure_contract ⟨[], 0⟩ (-1) 0).2 (by decide)).1

/-- C7: `Read(buffer, maxBytes, handle)` transfers at most `maxBytes`
bytes starting at the current logical position, returns the count actually
transferred, advances the position by exactly that count and (from a
position within the data) never past length; a zero return means
end-of-stream (or a zero-byte request), not an error. -/
theorem read_contract (f : CFile) (n : Nat) :
    (readQ f n).1 ≤ n ∧
    (readQ f n).2.pos = f.pos + (readQ f n).1 ∧
    (f.pos ≤ f.data.length → (readQ f n).2.pos ≤ f.data.length) ∧
    (fread f n).1 = (f.data.drop f.pos).take n ∧
    ((readQ f n).1 = 0 ↔ n = 0 ∨ f.data.length ≤ f.pos) := by
  unfold readQ
  dsimp only
  rw [fread_pos, fread_length]
  exact ⟨by omega, rfl, fun hle => by omega, rfl, by omega⟩

/-- C7 witness: reading 5 bytes from position 1 of a 3-byte stream stays
within the length. -/
theorem read_contract_witness :
    (readQ ⟨[1, 2, 3], 1⟩ 5).2.pos ≤ 3 :=
  (read_contract ⟨[1, 2, 3], 1⟩ 5).2.2.1 (by decide)

/-- C8: a `Seek` to an absolute position `p` within `[0, length]`
succeeds, `Tell` invoked immediately after returns exactly `p` (`Tell`
is total, so it never fails for a valid handle), and a `Read` following
that `Seek` returns bytes starting at logical offset `p`. -/
theorem seek_then_tell_and_read (f : CFile) (p : Nat)
    (hp : p ≤ f.data.length) :
    (seekQ f (p : Int) 0).1 = true ∧
    tellQ (seekQ f (p : Int) 0).2 = p ∧
    ∀ n, (fread (seekQ f (p : Int) 0).2 n).1 = (f.data.drop p).take n := by
  have hseek : seekQ f (p : Int) 0 = (true, ⟨f.data, p⟩) := by
    have hnn : ¬((p : Int) < 0) := by omega
    unfold seekQ fseek seekTarget
    simp [hnn]
  rw [hseek]
  exact ⟨rfl, rfl, fun n => rfl⟩

/-- C8 witness: after seeking to position 2 of a 2-byte stream, `Tell`
returns 2. -/
theorem seek_then_tell_and_read_witness :
    tellQ (seekQ ⟨[5, 6], 0⟩ ((2 : Nat) : Int) 0).2 = 2 :=
  (seek_then_tell_and_read ⟨[5, 6], 0⟩ 2 (by decide)).2.1

/-- Helper: no interface call changes the length captured at `Open`. -/
theorem applyOps_lengthAtOpen (ops : List FileOp) (h : QHandle) :
    (applyOps h ops).lengthAtOpen = h.lengthAtOpen := by
  induction ops generalizing h with
  | nil => rfl
  | cons op ops ih =>
    show (applyOps (applyOp h op) ops).lengthAtOpen = h.lengthAtOpen
    rw [ih]
    cases op <;> rfl

/-- C4: `Length` returns the total logical size of the asset as captured
at `Open` time, and the value is immutable for the whole life of the
handle: after any sequence of intervening `Read`/`Seek` calls, `Length`
still returns the size captured at `Open`. -/
theorem length_captured_at_open_immutable (data : List Nat)
    (ops : List FileOp) :
    lengthQ (applyOps (openHandle data) ops) = data.length ∧
    lengthQ (applyOps (openHandle data) ops) = lengthQ (openHandle data) := by
  unfold lengthQ
  rw [applyOps_lengthAtOpen]
  exact ⟨rfl, rfl⟩

end QRmlUI

